import Mathlib

/-!
Verification development for the sprint-planner application (`src/App.tsx`,
`ImportExportModal`).  The data model and operations below are a shallow
embedding of the TypeScript source: pure functions become Lean functions,
React `setData` updaters become document-to-document functions, and the
nondeterministic `generateId()` becomes an explicit id parameter.  JavaScript
numbers appearing in the planner (velocity, multipliers, story points) are
integers in all reachable states, embedded as `Int`; the two divisions in the
statistics layer are carried out in `ℚ` with `Math.round` modelled exactly
(round half towards positive infinity).
-/

set_option maxHeartbeats 1000000

namespace Planner

/-- `SubItem` from App.tsx: `{ id: string; text: string }`. -/
structure SubItem where
  id : String
  text : String
deriving DecidableEq, Repr

/-- Runtime value of the `requiredPoints?: number | ""` fields: either a
JavaScript number (an integer in every reachable document) or a string (the
source writes `""`; imported JSON may carry other strings such as `"5"`). -/
inductive PtsVal where
  | num (n : Int)
  | str (s : String)
deriving DecidableEq, Repr

/-- `Item` from App.tsx.  TypeScript optional fields (`epic?`, `domain?`,
`requiredPoints?`, `optionalPoints?`) are `Option`s: `none` means the
property is absent from the runtime object. -/
structure Item where
  id : String
  text : String
  subItems : List SubItem
  epic : Option String := none
  domain : Option String := none
  requiredPoints : Option PtsVal := none
  optionalPoints : Option PtsVal := none
deriving DecidableEq, Repr

/-- `Sprint` from App.tsx: `{ id: string; name: string; multiplier: number }`. -/
structure Sprint where
  id : String
  name : String
  multiplier : Int
deriving DecidableEq, Repr

/-- The seven fixed group identifiers (`type GroupId` in App.tsx). -/
inductive GroupId where
  | staging | committed | milestones | risks | dependencies | willNotDo | uncommitted
deriving DecidableEq, Repr

/-- The string key of a group, as used for object keys and drop-zone ids. -/
def GroupId.str : GroupId → String
  | .staging => "staging"
  | .committed => "committed"
  | .milestones => "milestones"
  | .risks => "risks"
  | .dependencies => "dependencies"
  | .willNotDo => "willNotDo"
  | .uncommitted => "uncommitted"

/-- `Object.keys(GROUP_CONFIG).includes(overId)` resolution: which group a
string names, if any. -/
def groupOfString (s : String) : Option GroupId :=
  if s = "staging" then some .staging
  else if s = "committed" then some .committed
  else if s = "milestones" then some .milestones
  else if s = "risks" then some .risks
  else if s = "dependencies" then some .dependencies
  else if s = "willNotDo" then some .willNotDo
  else if s = "uncommitted" then some .uncommitted
  else none

/-- The seven groups in the declaration order of `GROUP_CONFIG`. -/
def allGroups : List GroupId :=
  [.staging, .committed, .milestones, .risks, .dependencies, .willNotDo, .uncommitted]

/-- `PlannerData` from App.tsx.  `items` is total: every one of the seven
group keys is present (the store's merge-with-defaults maintains this). -/
structure PlannerData where
  sprints : List Sprint
  velocity : Int
  items : GroupId → List Item

/-- Pointwise equality of documents (used because `items` is a function). -/
def PlannerData.equiv (a b : PlannerData) : Prop :=
  a.sprints = b.sprints ∧ a.velocity = b.velocity ∧ ∀ g, a.items g = b.items g

/-- `DEFAULT_DATA` from App.tsx. -/
def DEFAULT_DATA : PlannerData where
  sprints :=
    [ ⟨"s1", "S1", 100⟩, ⟨"s2", "S2", 95⟩, ⟨"s3", "S3", 90⟩,
      ⟨"s4", "S4", 80⟩, ⟨"s5", "S5", 70⟩ ]
  velocity := 34
  items := fun _ => []

/-- Replace one group's sequence, leaving everything else untouched: the
`{ ...prev, items: { ...prev.items, [g]: l } }` update pattern. -/
def setGroup (d : PlannerData) (g : GroupId) (l : List Item) : PlannerData :=
  { d with items := fun g' => if g' = g then l else d.items g' }

@[simp] theorem setGroup_sprints (d : PlannerData) (g : GroupId) (l : List Item) :
    (setGroup d g l).sprints = d.sprints := rfl

@[simp] theorem setGroup_velocity (d : PlannerData) (g : GroupId) (l : List Item) :
    (setGroup d g l).velocity = d.velocity := rfl

@[simp] theorem setGroup_items_same (d : PlannerData) (g : GroupId) (l : List Item) :
    (setGroup d g l).items g = l := by simp [setGroup]

theorem setGroup_items_other (d : PlannerData) (g g' : GroupId) (l : List Item)
    (h : g' ≠ g) : (setGroup d g l).items g' = d.items g' := by
  simp [setGroup, h]

/-! ## Item mutation engine (App.tsx `handle*` updaters) -/

/-- The fresh item built by `handleAddItem`: note that the optional fields are
written as *empty strings*, not omitted (`epic: ""`, `domain: ""`,
`requiredPoints: ""`, `optionalPoints: ""`). -/
def newItem (fid : String) : Item :=
  { id := fid, text := "", subItems := []
    epic := some "", domain := some ""
    requiredPoints := some (.str ""), optionalPoints := some (.str "") }

/-- `handleAddItem` with the `generateId()` result passed explicitly. -/
def handleAddItem (d : PlannerData) (g : GroupId) (fid : String) : PlannerData :=
  setGroup d g (d.items g ++ [newItem fid])

/-- A `Partial<Item>` update object: `some v` means the property is present in
the updates object with value `v`. -/
structure ItemPatch where
  id : Option String := none
  text : Option String := none
  subItems : Option (List SubItem) := none
  epic : Option (Option String) := none
  domain : Option (Option String) := none
  requiredPoints : Option (Option PtsVal) := none
  optionalPoints : Option (Option PtsVal) := none

/-- `{ ...item, ...updates }`. -/
def mergeItem (it : Item) (u : ItemPatch) : Item where
  id := u.id.getD it.id
  text := u.text.getD it.text
  subItems := u.subItems.getD it.subItems
  epic := u.epic.getD it.epic
  domain := u.domain.getD it.domain
  requiredPoints := u.requiredPoints.getD it.requiredPoints
  optionalPoints := u.optionalPoints.getD it.optionalPoints

/-- `handleUpdateItem(groupId)(itemId, updates)`. -/
def handleUpdateItem (d : PlannerData) (g : GroupId) (itemId : String)
    (u : ItemPatch) : PlannerData :=
  setGroup d g ((d.items g).map fun it => if it.id = itemId then mergeItem it u else it)

/-- `handleDeleteItem(groupId)(itemId)`. -/
def handleDeleteItem (d : PlannerData) (g : GroupId) (itemId : String) : PlannerData :=
  setGroup d g ((d.items g).filter fun it => it.id ≠ itemId)

/-- `handleDuplicateItem`, with the `generateId()` calls replaced by an
explicit generator (`idGen 0` for the item, `idGen (k+1)` for sub-item `k`). -/
def handleDuplicateItem (d : PlannerData) (g : GroupId) (it : Item)
    (idGen : Nat → String) : PlannerData :=
  let dup : Item :=
    { it with
      id := idGen 0
      text := if it.text ≠ "" then it.text ++ " (copy)" else ""
      subItems := it.subItems.mapIdx fun k sub => { sub with id := idGen (k + 1) } }
  setGroup d g (d.items g ++ [dup])

/-- Exchange the (valid) positions `i` and `j` of a list; models the
destructuring swap in `handleReorderItem`. -/
def swapAt (l : List α) (i j : Nat) : List α :=
  match l[i]?, l[j]? with
  | some a, some b => (l.set i b).set j a
  | _, _ => l

/-- Direction argument of `handleReorderItem`. -/
inductive Dir where
  | up | down
deriving DecidableEq, Repr

/-- `handleReorderItem(groupId, itemId, direction)`.  `findIndex` returning
`-1` is modelled by `findIdx?` returning `none`; the `newIndex` bound checks
are carried out in `Int` exactly as in the source. -/
def handleReorderItem (d : PlannerData) (g : GroupId) (itemId : String)
    (dir : Dir) : PlannerData :=
  let items := d.items g
  match items.findIdx? (fun it => it.id = itemId) with
  | none => d
  | some currentIndex =>
      let newIndex : Int := if dir = .up then (currentIndex : Int) - 1 else currentIndex + 1
      if newIndex < 0 ∨ (items.length : Int) ≤ newIndex then d
      else setGroup d g (swapAt items currentIndex newIndex.toNat)

/-! ## Drag transition resolver (`handleDragEnd`) -/

/-- The `data.current` payload attached to a draggable/sortable item. -/
structure DragData where
  item : Item
  groupId : GroupId

/-- The `over` half of a `DragEndEvent`: the id of the droppable under the
pointer and its payload (group drop zones carry no `DragData`). -/
structure OverInfo where
  oid : String
  data : Option DragData

/-- A digested `DragEndEvent`: `active.id`, `active.data.current`, `over`. -/
structure DragEndEvent where
  activeId : String
  activeData : DragData
  over : Option OverInfo

/-- `arrayMove` from `@dnd-kit/sortable` at the valid indices the caller
guarantees (both produced by successful `findIndex`). -/
def arrayMove (l : List α) (f t : Nat) : List α :=
  match l[f]? with
  | some a => (l.eraseIdx f).insertIdx t a
  | none => l

/-- `handleDragEnd` from App.tsx (the `setActiveId/setActiveItem` resets are
pure UI state and not part of the document transition). -/
def handleDragEnd (d : PlannerData) (ev : DragEndEvent) : PlannerData :=
  match ev.over with
  | none => d
  | some over =>
    if ev.activeId = over.oid then d
    else
      let dragData := ev.activeData
      let sourceGroup := dragData.groupId
      match groupOfString over.oid with
      | some destGroup =>
          -- drop on a group's empty-zone marker
          if sourceGroup = destGroup then d
          else
            setGroup
              (setGroup d sourceGroup
                ((d.items sourceGroup).filter fun i => i.id ≠ dragData.item.id))
              destGroup (d.items destGroup ++ [dragData.item])
      | none =>
          -- drop on another item
          let destGroup := (over.data.map (·.groupId)).getD sourceGroup
          if sourceGroup = destGroup then
            let items := d.items sourceGroup
            match items.findIdx? (fun i => i.id = ev.activeId),
                  items.findIdx? (fun i => i.id = over.oid) with
            | some oldIndex, some newIndex =>
                setGroup d sourceGroup (arrayMove items oldIndex newIndex)
            | _, _ => d
          else
            let destItems := d.items destGroup
            let newIndex := destItems.findIdx? (fun i => i.id = over.oid)
            let newDestItems :=
              destItems.insertIdx (newIndex.getD destItems.length) dragData.item
            setGroup
              (setGroup d sourceGroup
                ((d.items sourceGroup).filter fun i => i.id ≠ dragData.item.id))
              destGroup newDestItems

/-! ## Statistics aggregator -/

/-- `typeof v === "number" ? v : 0` for a possibly-absent points field. -/
def toPoints : Option PtsVal → Int
  | some (.num n) => n
  | _ => 0

/-- `Math.round`: round half towards positive infinity. -/
def jsRound (q : ℚ) : Int := ⌊q + 1 / 2⌋

/-- `calcStats(groupId)`: the two `reduce` folds over a group's items. -/
def calcStats (d : PlannerData) (g : GroupId) : Int × Int :=
  let items := d.items g
  ( items.foldl (fun sum it => sum + toPoints it.requiredPoints) 0,
    items.foldl (fun sum it => sum + toPoints it.optionalPoints) 0 )

/-- `totalPlanningPoints`: `sprints.reduce((sum, s) => sum + velocity * (s.multiplier / 100), 0)`. -/
def totalPlanningPoints (d : PlannerData) : ℚ :=
  d.sprints.foldl (fun sum s => sum + (d.velocity : ℚ) * ((s.multiplier : ℚ) / 100)) 0

/-- `committedPercent`. -/
def committedPercent (d : PlannerData) : Int :=
  if 0 < totalPlanningPoints d then
    jsRound (((calcStats d .committed).1 : ℚ) / totalPlanningPoints d * 100)
  else 0

/-- `committedRemaining`. -/
def committedRemaining (d : PlannerData) : Int :=
  jsRound (totalPlanningPoints d - ((calcStats d .committed).1 : ℚ))

/-- `item.domain || "Unassigned"` (both an absent and an empty-string domain
are falsy). -/
def defDomain (it : Item) : String :=
  match it.domain with
  | some s => if s = "" then "Unassigned" else s
  | none => "Unassigned"

/-- `domains[domain] = (domains[domain] || 0) + points` on an
insertion-ordered record: update in place if present, else append. -/
def bump (l : List (String × Int)) (k : String) (p : Int) : List (String × Int) :=
  match l with
  | [] => [(k, p)]
  | (k', v) :: rest => if k' = k then (k', v + p) :: rest else (k', v) :: bump rest k p

/-- The `committedItems.forEach` accumulation loop of `domainBreakdown`:
threads the `domains` record and the running `totalPoints`. -/
def accumLoop : List Item → List (String × Int) × Int → List (String × Int) × Int
  | [], acc => acc
  | it :: rest, (l, tot) =>
      let p := toPoints it.requiredPoints
      accumLoop rest (if 0 < p then (bump l (defDomain it) p, tot + p) else (l, tot))

/-- Is `s` an array-index property key (canonical decimal form of an integer
below `2^32 - 1`)?  Such keys are enumerated first, in ascending numeric
order, by `Object.entries`. -/
def isArrayIndexKey (s : String) : Bool :=
  match s.toNat? with
  | some n => decide (toString n = s ∧ n < 2 ^ 32 - 1)
  | none => false

/-- Stable insertion (ascending by the numeric value of the key) used to model
the integer-key ordering of `Object.entries`. -/
def insKeyAsc (x : String × Int) : List (String × Int) → List (String × Int)
  | [] => [x]
  | y :: ys =>
      if (y.1.toNat?.getD 0) ≤ (x.1.toNat?.getD 0) then y :: insKeyAsc x ys
      else x :: y :: ys

/-- `Object.entries` enumeration order: array-index keys first in ascending
numeric order, then the remaining keys in insertion order. -/
def entriesOrder (l : List (String × Int)) : List (String × Int) :=
  (l.filter fun p => isArrayIndexKey p.1).foldr insKeyAsc []
    ++ l.filter fun p => !(isArrayIndexKey p.1)

/-- One row of the domain breakdown. -/
structure DomainStat where
  name : String
  points : Int
  percent : Int
deriving DecidableEq, Repr

/-- Stable insertion for `.sort((a, b) => b.points - a.points)`: descending by
points, ties keeping the earlier element first. -/
def insPtsDesc (x : DomainStat) : List DomainStat → List DomainStat
  | [] => [x]
  | y :: ys => if y.points < x.points then x :: y :: ys else y :: insPtsDesc x ys

/-- Stable descending sort by `points`. -/
def sortPtsDesc (l : List DomainStat) : List DomainStat := l.foldr insPtsDesc []

/-- `domainBreakdown()` from App.tsx. -/
def domainBreakdown (d : PlannerData) : List DomainStat :=
  let acc := accumLoop (d.items .committed) ([], 0)
  let totalPoints := acc.2
  sortPtsDesc ((entriesOrder acc.1).map fun kv =>
    { name := kv.1, points := kv.2
      percent := if 0 < totalPoints then jsRound ((kv.2 : ℚ) / totalPoints * 100) else 0 })

/-- Replace a non-number (string-valued) points value by an absent field. -/
def pointDrop : Option PtsVal → Option PtsVal
  | some (.str _) => none
  | v => v

/-- Apply `pointDrop` to both points fields of an item. -/
def dropItemPts (it : Item) : Item :=
  { it with requiredPoints := pointDrop it.requiredPoints
            optionalPoints := pointDrop it.optionalPoints }

/-- Replace every non-number (string-valued) points field of every item by an
absent field; the shape quantified over by the implicit-robustness claim. -/
def dropNonNum (d : PlannerData) : PlannerData :=
  { d with items := fun g => (d.items g).map dropItemPts }

/-! ## JSON layer: import/export codec and the persisted-document store

`JSON.parse` / `JSON.stringify` are JavaScript built-ins (external to the
repository); they are modelled at the level of the JSON value a string
denotes.  `Json` below is that value domain (numbers occurring in planner
documents are integers). -/

inductive Json where
  | null
  | bool (b : Bool)
  | num (n : Int)
  | str (s : String)
  | arr (xs : List Json)
  | obj (fields : List (String × Json))
deriving Repr

/-- `parsed === null`-style test (the only dynamic check the model needs). -/
def Json.isNull : Json → Bool
  | .null => true
  | _ => false

/-- Property lookup `j.k`: `none` models `undefined` (also the result of
property access on non-null primitives).  `JSON.parse` output has no
duplicate keys, so first-match lookup is exact on the values that occur. -/
def getField : Json → String → Option Json
  | .obj fs, k => (fs.find? fun p => p.1 = k).map (·.2)
  | _, _ => none

/-- Set key `k` of an insertion-ordered field list: override in place when
present, append when new — JavaScript object-literal/spread key semantics.
(The field lists this runs on — object literals supplied in the source and
`JSON.parse` output — never carry duplicate keys, so first-occurrence
replacement is exact.) -/
def setKey : List (String × Json) → String → Json → List (String × Json)
  | [], k, v => [(k, v)]
  | p :: rest, k, v => if p.1 = k then (k, v) :: rest else p :: setKey rest k v

/-- `{ ...base, ...overlay }` on the field list of `base`: an object overlay
writes each of its fields in order; a non-object overlay contributes no
string-named fields (array/string spreads add only array-index keys, which
never collide with the planner's named fields). -/
def jsSpreadFields (base : List (String × Json)) : Json → List (String × Json)
  | .obj fs => fs.foldl (fun acc kv => setKey acc kv.1 kv.2) base
  | _ => base

/-- Field list of `DEFAULT_DATA.items` as a JSON object. -/
def defaultItemsFields : List (String × Json) :=
  allGroups.map fun g => (g.str, Json.arr [])

/-- `DEFAULT_DATA` as the JSON value it serializes to. -/
def defaultFields : List (String × Json) :=
  [ ("sprints", Json.arr
      [ .obj [("id", .str "s1"), ("name", .str "S1"), ("multiplier", .num 100)],
        .obj [("id", .str "s2"), ("name", .str "S2"), ("multiplier", .num 95)],
        .obj [("id", .str "s3"), ("name", .str "S3"), ("multiplier", .num 90)],
        .obj [("id", .str "s4"), ("name", .str "S4"), ("multiplier", .num 80)],
        .obj [("id", .str "s5"), ("name", .str "S5"), ("multiplier", .num 70)] ]),
    ("velocity", Json.num 34),
    ("items", Json.obj defaultItemsFields) ]

def defaultDataJson : Json := .obj defaultFields

/-- The merge-with-defaults object literal shared by `loadFromStorage` and
`handleImportData`:
`{ ...DEFAULT_DATA, ...parsed, items: { ...DEFAULT_DATA.items, ...parsed.items } }`.
Only evaluated on non-null `parsed` (on `null`, `parsed.items` throws first). -/
def mergeOverDefaults (parsed : Json) : Json :=
  let itemsMerged : Json :=
    .obj (jsSpreadFields defaultItemsFields ((getField parsed "items").getD .null))
  .obj (setKey (jsSpreadFields defaultFields parsed) "items" itemsMerged)

/-- `handleImportData` given the current document value and the outcome of
`JSON.parse(jsonString)` (`none` = syntax error).  A parse error — or the
`TypeError` thrown by `parsed.items` when the text parses to `null` — is
caught, logged, and leaves the document unchanged. -/
def handleImportDataJson (cur : Json) (parsed : Option Json) : Json :=
  match parsed with
  | none => cur
  | some j => if j.isNull then cur else mergeOverDefaults j

/-- `handleImport` from ImportExportModal.tsx: returns the document after the
call and the validation message set (`none` = cleared).  `textTrim` is the
result of the `importText.trim()` builtin (the guard `!importText.trim()`
holds exactly when it is empty) and `parsed` is the outcome of
`JSON.parse(importText)`. -/
def modalHandleImport (textTrim : String) (parsed : Option Json) (cur : Json) :
    Json × Option String :=
  if textTrim = "" then (cur, some "Please paste JSON data to import")
  else
    match parsed with
    | none => (cur, some "Invalid JSON format. Please check your data.")
    | some j => (handleImportDataJson cur (some j), none)

/-- `loadFromStorage` given the stored string (`none` = key absent) and the
outcome of `JSON.parse` on it.  An empty stored string is falsy and treated
as absent; a parse error, or the `TypeError` on a stored `"null"`, falls
through to `DEFAULT_DATA`. -/
def loadFromStorageJson (saved : Option String) (parsed : Option Json) : Json :=
  match saved with
  | none => defaultDataJson
  | some s =>
      if s = "" then defaultDataJson
      else
        match parsed with
        | none => defaultDataJson
        | some j => if j.isNull then defaultDataJson else mergeOverDefaults j

/-! ### Serialization of a typed document (what `JSON.stringify` emits,
modulo whitespace) and the strict typed reading used to state round-trips. -/

def encodePts : PtsVal → Json
  | .num n => .num n
  | .str s => .str s

def encodeSubItem (s : SubItem) : Json :=
  .obj [("id", .str s.id), ("text", .str s.text)]

/-- An item's JSON value: required fields first, optional fields only when
present (an absent optional property is omitted by `JSON.stringify`). -/
def encodeItem (it : Item) : Json :=
  .obj ([("id", .str it.id), ("text", .str it.text),
         ("subItems", .arr (it.subItems.map encodeSubItem))]
    ++ (match it.epic with | some e => [("epic", Json.str e)] | none => [])
    ++ (match it.domain with | some m => [("domain", Json.str m)] | none => [])
    ++ (match it.requiredPoints with
        | some v => [("requiredPoints", encodePts v)] | none => [])
    ++ (match it.optionalPoints with
        | some v => [("optionalPoints", encodePts v)] | none => []))

def encodeSprint (s : Sprint) : Json :=
  .obj [("id", .str s.id), ("name", .str s.name), ("multiplier", .num s.multiplier)]

/-- `JSON.stringify(data, null, 2)`'s value: the full document with all seven
group keys, in `GROUP_CONFIG` order. -/
def encodeDoc (d : PlannerData) : Json :=
  .obj [ ("sprints", .arr (d.sprints.map encodeSprint)),
         ("velocity", .num d.velocity),
         ("items", .obj (allGroups.map fun g => (g.str, Json.arr ((d.items g).map encodeItem)))) ]

def decodePts : Json → Option PtsVal
  | .num n => some (.num n)
  | .str s => some (.str s)
  | _ => none

def decodeSubItem : Json → Option SubItem
  | .obj [("id", .str i), ("text", .str t)] => some ⟨i, t⟩
  | _ => none

def decodeOpt (f : Json → Option α) : List (String × Json) → Option (Option α)
  | [] => some none
  | [(_, v)] => (f v).map some
  | _ => none

/-- Decode each element of a JSON array, failing if any element fails. -/
def decodeList (f : Json → Option α) : List Json → Option (List α)
  | [] => some []
  | x :: xs => do
      let a ← f x
      let rest ← decodeList f xs
      some (a :: rest)

def decodeItem : Json → Option Item
  | .obj (("id", .str i) :: ("text", .str t) :: ("subItems", .arr subs) :: rest) => do
      let subItems ← decodeList decodeSubItem subs
      let ep ← decodeOpt (fun | .str e => some e | _ => none)
        (rest.filter fun p => p.1 = "epic")
      let dm ← decodeOpt (fun | .str m => some m | _ => none)
        (rest.filter fun p => p.1 = "domain")
      let rp ← decodeOpt decodePts (rest.filter fun p => p.1 = "requiredPoints")
      let op ← decodeOpt decodePts (rest.filter fun p => p.1 = "optionalPoints")
      some { id := i, text := t, subItems := subItems
             epic := ep, domain := dm, requiredPoints := rp, optionalPoints := op }
  | _ => none

def decodeSprint : Json → Option Sprint
  | .obj [("id", .str i), ("name", .str n), ("multiplier", .num m)] => some ⟨i, n, m⟩
  | _ => none

/-- Read one group's item array out of the `items` object. -/
def decodeGroup (items : Json) (g : GroupId) : Option (List Item) :=
  match getField items g.str with
  | some (.arr xs) => decodeList decodeItem xs
  | _ => none

def decodeDoc (j : Json) : Option PlannerData :=
  match getField j "sprints", getField j "velocity", getField j "items" with
  | some (.arr ss), some (.num v), some items => do
      let sprints ← decodeList decodeSprint ss
      let st ← decodeGroup items .staging
      let cm ← decodeGroup items .committed
      let ms ← decodeGroup items .milestones
      let rk ← decodeGroup items .risks
      let dp ← decodeGroup items .dependencies
      let wn ← decodeGroup items .willNotDo
      let uc ← decodeGroup items .uncommitted
      some { sprints := sprints, velocity := v
             items := fun g => match g with
               | .staging => st | .committed => cm | .milestones => ms
               | .risks => rk | .dependencies => dp | .willNotDo => wn
               | .uncommitted => uc }
  | _, _, _ => none

/-! ## General lemmas -/

theorem foldl_add_map {β : Type} [AddCommMonoid β] (f : α → β) :
    ∀ (l : List α) (a : β), l.foldl (fun s x => s + f x) a = a + (l.map f).sum
  | [], a => by simp
  | x :: xs, a => by
      simp only [List.foldl_cons, List.map_cons, List.sum_cons, foldl_add_map f xs]
      rw [add_assoc]

theorem handleReorderItem_sprints (d : PlannerData) (g : GroupId) (itemId : String)
    (dir : Dir) : (handleReorderItem d g itemId dir).sprints = d.sprints := by
  unfold handleReorderItem
  dsimp only
  repeat' split
  all_goals rfl

theorem handleReorderItem_velocity (d : PlannerData) (g : GroupId) (itemId : String)
    (dir : Dir) : (handleReorderItem d g itemId dir).velocity = d.velocity := by
  unfold handleReorderItem
  dsimp only
  repeat' split
  all_goals rfl

theorem handleDragEnd_sprints (d : PlannerData) (ev : DragEndEvent) :
    (handleDragEnd d ev).sprints = d.sprints := by
  unfold handleDragEnd
  dsimp only
  repeat' split
  all_goals rfl

theorem handleDragEnd_velocity (d : PlannerData) (ev : DragEndEvent) :
    (handleDragEnd d ev).velocity = d.velocity := by
  unfold handleDragEnd
  dsimp only
  repeat' split
  all_goals rfl

/-! ## Claim C4: capacity statistics -/

/-- A one-sprint overcommitted document witnessing a negative remaining. -/
def overDoc : PlannerData where
  sprints := [⟨"s", "S", 100⟩]
  velocity := 1
  items := fun g => if g = .committed then
    [{ id := "i", text := "", subItems := [], requiredPoints := some (.num 5) }] else []

/-- C4: `totalPlanningPoints` is the sum over sprints of
`velocity * multiplier / 100`; `committedPercent` is
`round(committedRequired / totalCapacity * 100)` when the capacity is
positive and `0` otherwise; `committedRemaining` is
`round(totalCapacity - committedRequired)` and can be negative. -/
theorem capacity_stats_spec (d : PlannerData) :
    totalPlanningPoints d
      = ((d.sprints.map fun s => (d.velocity : ℚ) * s.multiplier / 100).sum) ∧
    committedPercent d
      = (if 0 < totalPlanningPoints d
         then jsRound (((calcStats d .committed).1 : ℚ) / totalPlanningPoints d * 100)
         else 0) ∧
    committedRemaining d
      = jsRound (totalPlanningPoints d - ((calcStats d .committed).1 : ℚ)) ∧
    ∃ d', committedRemaining d' < 0 := by
  refine ⟨?_, rfl, rfl, ⟨overDoc, ?_⟩⟩
  · rw [totalPlanningPoints, foldl_add_map]
    simp [mul_div_assoc]
  · have h1 : totalPlanningPoints overDoc = 1 := by
      norm_num [totalPlanningPoints, overDoc]
    have h2 : (calcStats overDoc .committed).1 = 5 := by
      norm_num [calcStats, overDoc, toPoints]
    rw [committedRemaining, h1, h2]
    norm_num [jsRound]

/-! ## Claim C6: addItem -/

/-- C6 counterexample: the item appended by `handleAddItem` carries
empty-string values in all four "optional" fields, not absent fields. -/
theorem addItem_optional_fields_not_absent :
    (handleAddItem DEFAULT_DATA .staging "x1").items .staging = [newItem "x1"] ∧
    (newItem "x1").epic = some "" ∧
    (newItem "x1").domain = some "" ∧
    (newItem "x1").requiredPoints = some (.str "") ∧
    (newItem "x1").optionalPoints = some (.str "") ∧
    some "" ≠ (none : Option String) := by
  refine ⟨?_, rfl, rfl, rfl, rfl, by simp⟩
  simp [handleAddItem, DEFAULT_DATA]

/-- C6 (amended): `handleAddItem` appends exactly one new item to the chosen
group — empty text, empty sub-items, the freshly generated id — whose four
optional fields are *present with empty-string values* rather than absent;
every other group is unchanged. -/
theorem handleAddItem_spec (d : PlannerData) (g : GroupId) (fid : String) :
    (handleAddItem d g fid).items g = d.items g ++ [newItem fid] ∧
    (newItem fid).id = fid ∧ (newItem fid).text = "" ∧ (newItem fid).subItems = [] ∧
    (newItem fid).epic = some "" ∧ (newItem fid).domain = some "" ∧
    (newItem fid).requiredPoints = some (.str "") ∧
    (newItem fid).optionalPoints = some (.str "") ∧
    (∀ g', g' ≠ g → (handleAddItem d g fid).items g' = d.items g') := by
  refine ⟨by simp [handleAddItem], rfl, rfl, rfl, rfl, rfl, rfl, rfl, ?_⟩
  intro g' hg'
  simp [handleAddItem, setGroup, hg']

/-- Witness for `handleAddItem_spec` at a concrete input. -/
theorem handleAddItem_spec_witness :
    (handleAddItem DEFAULT_DATA .staging "x1").items .committed = [] :=
  (handleAddItem_spec DEFAULT_DATA .staging "x1").2.2.2.2.2.2.2.2 .committed (by decide)

/-! ## Claim C10: item-level mutations never touch sprints or velocity -/

/-- C10: every item-level mutation — add, update, delete, duplicate, reorder,
and any drag-end resolution — leaves `sprints` and `velocity` exactly
unchanged; only the `items` mapping can differ. -/
theorem mutations_preserve_sprints_velocity
    (d : PlannerData) (g : GroupId) (fid itemId : String) (u : ItemPatch)
    (it : Item) (idGen : Nat → String) (dir : Dir) (ev : DragEndEvent) :
    ((handleAddItem d g fid).sprints = d.sprints ∧
      (handleAddItem d g fid).velocity = d.velocity) ∧
    ((handleUpdateItem d g itemId u).sprints = d.sprints ∧
      (handleUpdateItem d g itemId u).velocity = d.velocity) ∧
    ((handleDeleteItem d g itemId).sprints = d.sprints ∧
      (handleDeleteItem d g itemId).velocity = d.velocity) ∧
    ((handleDuplicateItem d g it idGen).sprints = d.sprints ∧
      (handleDuplicateItem d g it idGen).velocity = d.velocity) ∧
    ((handleReorderItem d g itemId dir).sprints = d.sprints ∧
      (handleReorderItem d g itemId dir).velocity = d.velocity) ∧
    ((handleDragEnd d ev).sprints = d.sprints ∧
      (handleDragEnd d ev).velocity = d.velocity) :=
  ⟨⟨rfl, rfl⟩, ⟨rfl, rfl⟩, ⟨rfl, rfl⟩, ⟨rfl, rfl⟩,
    ⟨handleReorderItem_sprints d g itemId dir, handleReorderItem_velocity d g itemId dir⟩,
    ⟨handleDragEnd_sprints d ev, handleDragEnd_velocity d ev⟩⟩

/-! ## Claim C7: reorderItem -/

/-- A two-item staging document used to instantiate reorder boundary cases. -/
def twoDoc : PlannerData where
  sprints := []
  velocity := 0
  items := fun g =>
    if g = .staging then [{ id := "a", text := "", subItems := [] },
                          { id := "b", text := "", subItems := [] }] else []

/-- C7: `handleReorderItem` swaps the matching item with its immediate
neighbour in the requested direction; it is a no-op when the id is not found
in the group, when the first item is moved up, and when the last item is
moved down. -/
theorem handleReorderItem_spec (d : PlannerData) (g : GroupId) (itemId : String)
    (dir : Dir) :
    ((d.items g).findIdx? (fun it => it.id = itemId) = none →
      handleReorderItem d g itemId dir = d) ∧
    (∀ i, (d.items g).findIdx? (fun it => it.id = itemId) = some i →
      (dir = .up → i = 0 → handleReorderItem d g itemId dir = d) ∧
      (dir = .down → i + 1 = (d.items g).length → handleReorderItem d g itemId dir = d) ∧
      (dir = .up → 0 < i →
        handleReorderItem d g itemId dir = setGroup d g (swapAt (d.items g) i (i - 1))) ∧
      (dir = .down → i + 1 < (d.items g).length →
        handleReorderItem d g itemId dir = setGroup d g (swapAt (d.items g) i (i + 1)))) := by
  constructor
  · intro h
    unfold handleReorderItem
    dsimp only
    rw [h]
  · intro i hi
    have hlen : i < (d.items g).length :=
      ((List.findIdx?_eq_some_iff_findIdx_eq).1 hi).1
    refine ⟨?_, ?_, ?_, ?_⟩
    · rintro rfl rfl
      unfold handleReorderItem
      dsimp only
      rw [hi]
      dsimp only
      rw [if_pos rfl]
      split
      · rfl
      · rename_i h
        push_neg at h
        exfalso
        omega
    · rintro rfl hlast
      unfold handleReorderItem
      dsimp only
      rw [hi]
      dsimp only
      rw [if_neg (show ¬(Dir.down = Dir.up) from by simp)]
      split
      · rfl
      · rename_i h
        push_neg at h
        exfalso
        omega
    · rintro rfl hpos
      unfold handleReorderItem
      dsimp only
      rw [hi]
      dsimp only
      rw [if_pos rfl]
      split
      · rename_i h
        exfalso
        rcases h with h | h <;> omega
      · rw [show ((i : Int) - 1).toNat = i - 1 by omega]
    · rintro rfl hmid
      unfold handleReorderItem
      dsimp only
      rw [hi]
      dsimp only
      rw [if_neg (show ¬(Dir.down = Dir.up) from by simp)]
      split
      · rename_i h
        exfalso
        rcases h with h | h <;> omega
      · rw [show ((i : Int) + 1).toNat = i + 1 by omega]

/-- Witness for `handleReorderItem_spec`: in a two-item group, moving the
first item up is a no-op. -/
theorem handleReorderItem_spec_witness :
    handleReorderItem twoDoc .staging "a" .up = twoDoc :=
  ((handleReorderItem_spec twoDoc .staging "a" .up).2 0 (by decide)).1 rfl rfl

/-! ## Claim C9: non-number point values behave as absent in all statistics -/

theorem toPoints_pointDrop (v : Option PtsVal) : toPoints (pointDrop v) = toPoints v := by
  rcases v with _ | v
  · rfl
  · rcases v <;> rfl

theorem defDomain_dropItemPts (it : Item) : defDomain (dropItemPts it) = defDomain it := rfl

theorem foldl_congr_fn {f g : β → α → β} (h : ∀ b a, f b a = g b a) :
    ∀ (l : List α) (b : β), l.foldl f b = l.foldl g b
  | [], _ => rfl
  | x :: xs, b => by rw [List.foldl_cons, List.foldl_cons, h, foldl_congr_fn h xs]

theorem calcStats_dropNonNum (d : PlannerData) (g : GroupId) :
    calcStats (dropNonNum d) g = calcStats d g := by
  unfold calcStats dropNonNum
  dsimp only
  rw [List.foldl_map, List.foldl_map]
  simp only [Prod.mk.injEq]
  refine ⟨?_, ?_⟩
  · exact foldl_congr_fn (fun b it => by
      rw [show (dropItemPts it).requiredPoints = pointDrop it.requiredPoints from rfl,
        toPoints_pointDrop]) _ _
  · exact foldl_congr_fn (fun b it => by
      rw [show (dropItemPts it).optionalPoints = pointDrop it.optionalPoints from rfl,
        toPoints_pointDrop]) _ _

theorem accumLoop_dropNonNum :
    ∀ (items : List Item) (acc : List (String × Int) × Int),
      accumLoop (items.map dropItemPts) acc = accumLoop items acc
  | [], _ => rfl
  | it :: rest, (l, tot) => by
      rw [List.map_cons, accumLoop, accumLoop]
      rw [show (dropItemPts it).requiredPoints = pointDrop it.requiredPoints from rfl,
        toPoints_pointDrop, defDomain_dropItemPts]
      exact accumLoop_dropNonNum rest _

/-- C9: the statistics layer treats every non-number point value (the empty
string `addItem` writes, numeric strings arriving via import) as `0`, so
replacing all such values by absent fields changes none of `calcStats`,
`totalPlanningPoints`, `committedPercent`, `committedRemaining`,
`domainBreakdown`. -/
theorem stats_ignore_non_number_points (d : PlannerData) (g : GroupId) :
    toPoints (some (.str "")) = 0 ∧ toPoints (some (.str "5")) = 0 ∧
    toPoints none = 0 ∧
    calcStats (dropNonNum d) g = calcStats d g ∧
    totalPlanningPoints (dropNonNum d) = totalPlanningPoints d ∧
    committedPercent (dropNonNum d) = committedPercent d ∧
    committedRemaining (dropNonNum d) = committedRemaining d ∧
    domainBreakdown (dropNonNum d) = domainBreakdown d := by
  have hdb : domainBreakdown (dropNonNum d) = domainBreakdown d := by
    unfold domainBreakdown dropNonNum
    dsimp only
    rw [accumLoop_dropNonNum]
  refine ⟨rfl, rfl, rfl, calcStats_dropNonNum d g, rfl, ?_, ?_, hdb⟩
  · unfold committedPercent
    rw [calcStats_dropNonNum]
    rfl
  · unfold committedRemaining
    rw [calcStats_dropNonNum]
    rfl

/-! ## JSON-layer lemmas -/

theorem getField_setKey_self :
    ∀ (l : List (String × Json)) (k : String) (v : Json),
      getField (.obj (setKey l k v)) k = some v
  | [], k, v => by simp [setKey, getField]
  | p :: rest, k, v => by
      by_cases h : p.1 = k
      · simp [setKey, getField, h]
      · have ih := getField_setKey_self rest k v
        simp only [setKey, getField, h, if_false, List.find?]
        simp only [getField] at ih
        simpa [h] using ih

theorem getField_isSome_iff (l : List (String × Json)) (k : String) :
    (getField (.obj l) k).isSome ↔ ∃ p ∈ l, p.1 = k := by
  rw [getField]
  rw [Option.isSome_map']
  rw [List.find?_isSome]
  simp

theorem exists_key_setKey :
    ∀ (l : List (String × Json)) (k' : String) (v : Json) (k : String),
      (∃ p ∈ l, p.1 = k) → ∃ p ∈ setKey l k' v, p.1 = k
  | [], _, _, _ => by rintro ⟨p, hp, _⟩; cases hp
  | q :: rest, k', v, k => by
      rintro ⟨p, hp, hpk⟩
      by_cases hq : q.1 = k'
      · rw [setKey, if_pos hq]
        rcases List.mem_cons.1 hp with rfl | hp
        · exact ⟨(k', v), List.mem_cons_self _ _, by rw [← hpk, ← hq]⟩
        · exact ⟨p, List.mem_cons_of_mem _ hp, hpk⟩
      · rw [setKey, if_neg hq]
        rcases List.mem_cons.1 hp with rfl | hp
        · exact ⟨p, List.mem_cons_self _ _, hpk⟩
        · obtain ⟨r, hr, hrk⟩ := exists_key_setKey rest k' v k ⟨p, hp, hpk⟩
          exact ⟨r, List.mem_cons_of_mem _ hr, hrk⟩

theorem getField_setKey_pres (l : List (String × Json)) (k' : String) (v : Json)
    (k : String) (h : (getField (.obj l) k).isSome) :
    (getField (.obj (setKey l k' v)) k).isSome := by
  rw [getField_isSome_iff] at h ⊢
  exact exists_key_setKey l k' v k h

theorem getField_spread_pres (k : String) :
    ∀ (fs : List (String × Json)) (base : List (String × Json)),
      (getField (.obj base) k).isSome →
      (getField (.obj (fs.foldl (fun acc kv => setKey acc kv.1 kv.2) base)) k).isSome
  | [], _base => fun h => h
  | kv :: rest, base => fun h =>
      getField_spread_pres k rest (setKey base kv.1 kv.2)
        (getField_setKey_pres base kv.1 kv.2 k h)

theorem getField_jsSpreadFields_pres (base : List (String × Json)) (over : Json)
    (k : String) (h : (getField (.obj base) k).isSome) :
    (getField (.obj (jsSpreadFields base over)) k).isSome := by
  cases over <;> first
    | exact h
    | exact getField_spread_pres k _ base h

/-- The `items` field of a merge-with-defaults result. -/
theorem mergeOverDefaults_items (j : Json) :
    getField (mergeOverDefaults j) "items"
      = some (.obj (jsSpreadFields defaultItemsFields ((getField j "items").getD .null))) :=
  getField_setKey_self _ _ _

theorem mergeOverDefaults_top_present (j : Json) :
    (getField (mergeOverDefaults j) "sprints").isSome ∧
    (getField (mergeOverDefaults j) "velocity").isSome := by
  constructor <;>
    exact getField_setKey_pres _ _ _ _
      (getField_jsSpreadFields_pres defaultFields j _ (by rfl))

theorem mergeOverDefaults_groups_present (j : Json) (g : GroupId) :
    (getField (.obj (jsSpreadFields defaultItemsFields ((getField j "items").getD .null)))
      g.str).isSome := by
  refine getField_jsSpreadFields_pres defaultItemsFields _ g.str ?_
  cases g <;> rfl

/-! ## Claim C8: load() defaults and merge -/

/-- C8 counterexample: the built-in default document's velocity baseline is
`34`, not zero. -/
theorem load_default_velocity_not_zero :
    getField (loadFromStorageJson none none) "velocity" = some (.num 34) ∧
    Json.num 34 ≠ Json.num 0 :=
  ⟨rfl, by simp⟩

/-- C8 (amended): on an absent persisted value or a parse failure, `load()`
returns the built-in default document — the fixed five-sprint starter
schedule, a velocity baseline of `34` (not zero), and all seven groups
present and empty; on any parsed value it returns the parsed object merged
field-by-field and per-group over those defaults, so every top-level field
and every group key is populated. -/
theorem loadFromStorage_spec (s' : String) (parsed : Option Json) (j : Json) :
    loadFromStorageJson none parsed = defaultDataJson ∧
    loadFromStorageJson (some s') none = defaultDataJson ∧
    getField defaultDataJson "velocity" = some (.num 34) ∧
    getField defaultDataJson "sprints" = some (.arr
      [ .obj [("id", .str "s1"), ("name", .str "S1"), ("multiplier", .num 100)],
        .obj [("id", .str "s2"), ("name", .str "S2"), ("multiplier", .num 95)],
        .obj [("id", .str "s3"), ("name", .str "S3"), ("multiplier", .num 90)],
        .obj [("id", .str "s4"), ("name", .str "S4"), ("multiplier", .num 80)],
        .obj [("id", .str "s5"), ("name", .str "S5"), ("multiplier", .num 70)] ]) ∧
    (∀ g : GroupId, getField (.obj defaultItemsFields) g.str = some (.arr [])) ∧
    (s' ≠ "" → loadFromStorageJson (some s') (some j) = mergeOverDefaults j) ∧
    (getField (mergeOverDefaults j) "sprints").isSome ∧
    (getField (mergeOverDefaults j) "velocity").isSome ∧
    (∃ ifs, getField (mergeOverDefaults j) "items" = some (.obj ifs) ∧
      ∀ g : GroupId, (getField (.obj ifs) g.str).isSome) := by
  refine ⟨rfl, by simp only [loadFromStorageJson]; split <;> rfl, rfl, rfl,
    fun g => by cases g <;> rfl, ?_, (mergeOverDefaults_top_present j).1,
    (mergeOverDefaults_top_present j).2,
    ⟨_, mergeOverDefaults_items j, mergeOverDefaults_groups_present j⟩⟩
  intro hs
  simp only [loadFromStorageJson]
  rw [if_neg hs]
  cases j <;> rfl

/-- Witness for `loadFromStorage_spec`: a stored partial object supplying
only a velocity is merged over the defaults. -/
theorem loadFromStorage_spec_witness :
    loadFromStorageJson (some "\x7b\x22velocity\x22:1\x7d")
        (some (.obj [("velocity", .num 1)]))
      = mergeOverDefaults (.obj [("velocity", .num 1)]) :=
  (loadFromStorage_spec "\x7b\x22velocity\x22:1\x7d" none
    (.obj [("velocity", .num 1)])).2.2.2.2.2.1 (by simp)

/-! ## Claim C5: import failure atomicity -/

/-- A current document differing from the defaults (velocity 1). -/
def alteredDoc : Json := .obj (setKey defaultFields "velocity" (.num 1))

/-- C5 counterexample: the text `"null"` is syntactically valid JSON, yet
importing it leaves the document unchanged instead of merging the parsed
value over the defaults (the `parsed.items` access throws and is caught);
and a whitespace-only import text is reported as "Please paste JSON data to
import", not as an "Invalid JSON format" message. -/
theorem import_null_and_empty_not_as_claimed :
    handleImportDataJson alteredDoc (some .null) = alteredDoc ∧
    alteredDoc ≠ mergeOverDefaults .null ∧
    modalHandleImport "" none alteredDoc
      = (alteredDoc, some "Please paste JSON data to import") ∧
    "Please paste JSON data to import" ≠ "Invalid JSON format. Please check your data." := by
  refine ⟨rfl, ?_, rfl, by decide⟩
  rw [show mergeOverDefaults .null = defaultDataJson from rfl]
  simp [alteredDoc, defaultDataJson, defaultFields, setKey]

/-- C5 (amended): a whitespace-only import text is rejected with "Please
paste JSON data to import"; any other text that fails to parse as JSON is
rejected with the "Invalid JSON format" message; in both cases the document
is unchanged.  A text parsing to JSON `null` also leaves the document
unchanged (the merge throws and is caught) while clearing the error; any
other successfully parsed value replaces the document by the parsed object
merged over the defaults. -/
theorem import_error_handling (textTrim : String) (parsed : Option Json) (cur : Json) :
    (textTrim = "" →
      modalHandleImport textTrim parsed cur
        = (cur, some "Please paste JSON data to import")) ∧
    (textTrim ≠ "" → parsed = none →
      modalHandleImport textTrim parsed cur
        = (cur, some "Invalid JSON format. Please check your data.")) ∧
    (textTrim ≠ "" →
      modalHandleImport textTrim (some .null) cur = (cur, none)) ∧
    (∀ j, textTrim ≠ "" → j.isNull = false →
      modalHandleImport textTrim (some j) cur = (mergeOverDefaults j, none)) ∧
    handleImportDataJson cur none = cur ∧
    handleImportDataJson cur (some .null) = cur ∧
    (∀ j, j.isNull = false → handleImportDataJson cur (some j) = mergeOverDefaults j) := by
  refine ⟨fun h => by simp [modalHandleImport, h],
    fun h hn => by simp [modalHandleImport, h, hn],
    fun h => by simp [modalHandleImport, handleImportDataJson, h, Json.isNull],
    fun j h hj => by simp [modalHandleImport, handleImportDataJson, h, hj],
    rfl, rfl,
    fun j hj => by simp [handleImportDataJson, hj]⟩

/-- Witness for `import_error_handling`: importing `"{}"` replaces the
document with the defaults-merge of the empty object. -/
theorem import_error_handling_witness :
    modalHandleImport "{}" (some (.obj [])) alteredDoc
      = (mergeOverDefaults (.obj []), none) :=
  (import_error_handling "{}" (some (.obj [])) alteredDoc).2.2.2.1
    (.obj []) (by simp) rfl

/-! ## Claim C1: import/export round-trip -/

theorem decodeList_encode (f : Json → Option α) (enc : α → Json)
    (h : ∀ x, f (enc x) = some x) : ∀ l : List α, decodeList f (l.map enc) = some l
  | [] => rfl
  | x :: xs => by
      rw [List.map_cons, decodeList, h x]
      rw [decodeList_encode f enc h xs]
      rfl

theorem decodePts_encodePts (v : PtsVal) : decodePts (encodePts v) = some v := by
  rcases v <;> rfl

theorem decodeItem_encodeItem (it : Item) : decodeItem (encodeItem it) = some it := by
  obtain ⟨i, t, subs, ep, dm, rp, op⟩ := it
  have hsubs : decodeList decodeSubItem (subs.map encodeSubItem) = some subs :=
    decodeList_encode decodeSubItem encodeSubItem (fun x => rfl) subs
  rcases ep with _ | e <;> rcases dm with _ | m <;> rcases rp with _ | r <;>
      rcases op with _ | o <;>
    simp [encodeItem, decodeItem, hsubs, decodeOpt, decodePts_encodePts]

theorem decodeGroup_encode (d : PlannerData) (g : GroupId) :
    decodeGroup (.obj (allGroups.map fun g' =>
        (g'.str, Json.arr ((d.items g').map encodeItem)))) g
      = some (d.items g) := by
  have h := decodeList_encode decodeItem encodeItem decodeItem_encodeItem
  cases g <;> exact h _

theorem plannerData_ext (a b : PlannerData) (h1 : a.sprints = b.sprints)
    (h2 : a.velocity = b.velocity) (h3 : ∀ g, a.items g = b.items g) : a = b := by
  obtain ⟨s1, v1, i1⟩ := a
  obtain ⟨s2, v2, i2⟩ := b
  dsimp only at h1 h2 h3
  subst h1 h2
  have : i1 = i2 := funext h3
  rw [this]

/-- C1: importing the exported value of any document yields that document
back unchanged — the merge over defaults is the identity on a full document
(all seven group keys present), and the strict typed reading recovers `d`
exactly, so ids, text and numeric fields are preserved and absent optional
fields stay absent. -/
theorem import_export_roundtrip (cur : Json) (d : PlannerData) :
    handleImportDataJson cur (some (encodeDoc d)) = encodeDoc d ∧
    decodeDoc (encodeDoc d) = some d := by
  constructor
  · rfl
  · show decodeDoc (encodeDoc d) = some d
    have hsp : decodeList decodeSprint (d.sprints.map encodeSprint) = some d.sprints :=
      decodeList_encode decodeSprint encodeSprint (fun s => rfl) d.sprints
    unfold decodeDoc
    rw [show getField (encodeDoc d) "sprints"
          = some (.arr (d.sprints.map encodeSprint)) from rfl,
        show getField (encodeDoc d) "velocity" = some (.num d.velocity) from rfl,
        show getField (encodeDoc d) "items"
          = some (.obj (allGroups.map fun g =>
              (g.str, Json.arr ((d.items g).map encodeItem)))) from rfl]
    dsimp only
    simp only [hsp, decodeGroup_encode d, Option.bind_eq_bind, Option.some_bind, Option.some.injEq]
    exact plannerData_ext _ _ rfl rfl (fun g => by cases g <;> rfl)

/-! ## Claim C3: domainBreakdown -/

/-- Total of the positive required points of a group's items (the running
`totalPoints` of the breakdown loop, expressed as a filtered sum). -/
def posSum (items : List Item) : Int :=
  ((items.filter fun it => 0 < toPoints it.requiredPoints).map
    fun it => toPoints it.requiredPoints).sum

/-- Positive required points of the items whose (defaulted) domain is `nm`. -/
def domPosSum (items : List Item) (nm : String) : Int :=
  ((items.filter fun it => defDomain it = nm ∧ 0 < toPoints it.requiredPoints).map
    fun it => toPoints it.requiredPoints).sum

/-- Value stored under key `k` of the accumulation record, `0` when absent. -/
def lookupD (l : List (String × Int)) (k : String) : Int :=
  (((l.find? fun p => p.1 = k).map (·.2)).getD 0)

theorem lookupD_bump_self (k : String) (p : Int) :
    ∀ l : List (String × Int), lookupD (bump l k p) k = lookupD l k + p
  | [] => by simp [bump, lookupD]
  | (k', v) :: rest => by
      by_cases h : k' = k
      · subst h
        simp [bump, lookupD]
      · have ih := lookupD_bump_self k p rest
        simp only [bump, if_neg h, lookupD, List.find?]
        rw [show (decide (k' = k)) = false by simp [h]]
        exact ih

theorem lookupD_bump_other (k k' : String) (p : Int) (hk : k' ≠ k) :
    ∀ l : List (String × Int), lookupD (bump l k p) k' = lookupD l k'
  | [] => by simp [bump, lookupD, List.find?, Ne.symm hk]
  | (q, v) :: rest => by
      by_cases h : q = k
      · subst h
        simp only [bump, if_pos rfl, lookupD, List.find?]
        rw [show (decide (q = k')) = false by simp [Ne.symm hk]]
      · have ih := lookupD_bump_other k k' p hk rest
        simp only [bump, if_neg h, lookupD, List.find?]
        by_cases hq : q = k'
        · simp [hq]
        · rw [show (decide (q = k')) = false by simp [hq]]
          exact ih

theorem bump_keys (k : String) (p : Int) :
    ∀ l : List (String × Int),
      (bump l k p).map Prod.fst
        = if k ∈ l.map Prod.fst then l.map Prod.fst else l.map Prod.fst ++ [k]
  | [] => by simp [bump]
  | (q, v) :: rest => by
      by_cases h : q = k
      · subst h
        simp [bump]
      · have ih := bump_keys k p rest
        by_cases hm : k ∈ rest.map Prod.fst
        · simp only [bump, if_neg h, List.map_cons, ih, if_pos hm]
          rw [if_pos (List.mem_cons_of_mem _ hm)]
        · simp only [bump, if_neg h, List.map_cons, ih, if_neg hm]
          rw [if_neg]
          · rfl
          · intro hc
            rcases List.mem_cons.1 hc with hc | hc
            · exact h hc.symm
            · exact hm hc

theorem bump_keys_nodup (k : String) (p : Int) (l : List (String × Int))
    (h : (l.map Prod.fst).Nodup) : ((bump l k p).map Prod.fst).Nodup := by
  rw [bump_keys]
  split
  · exact h
  · rename_i hm
    simp [List.nodup_append, h, hm]

theorem bump_valsum (k : String) (p : Int) :
    ∀ l : List (String × Int),
      ((bump l k p).map (·.2)).sum = (l.map (·.2)).sum + p
  | [] => by simp [bump]
  | (q, v) :: rest => by
      by_cases h : q = k
      · subst h
        simp [bump]
        ring
      · have ih := bump_valsum k p rest
        simp only [bump, if_neg h, List.map_cons, List.sum_cons, ih]
        ring

theorem bump_valpos (k : String) (p : Int) (hp : 0 < p) :
    ∀ l : List (String × Int), (∀ v ∈ l.map (·.2), 0 < v) →
      ∀ v ∈ (bump l k p).map (·.2), 0 < v
  | [], _, v, hv => by
      rw [show bump [] k p = [(k, p)] from rfl] at hv
      simp only [List.map_cons, List.map_nil, List.mem_singleton] at hv
      omega
  | (q, w) :: rest, hl, v, hv => by
      by_cases h : q = k
      · rw [show bump ((q, w) :: rest) k p = (q, w + p) :: rest by simp [bump, h]] at hv
        simp only [List.map_cons, List.mem_cons] at hv
        rcases hv with hveq | hv
        · have h0 := hl w (by simp)
          omega
        · exact hl v (List.mem_cons_of_mem _ hv)
      · rw [show bump ((q, w) :: rest) k p = (q, w) :: bump rest k p by simp [bump, h]] at hv
        simp only [List.map_cons, List.mem_cons] at hv
        rcases hv with hveq | hv
        · have h0 := hl w (by simp)
          omega
        · exact bump_valpos k p hp rest
            (fun u hu => hl u (List.mem_cons_of_mem _ hu)) v hv

theorem lookupD_of_mem (k : String) (v : Int) :
    ∀ l : List (String × Int), (l.map Prod.fst).Nodup → (k, v) ∈ l →
      lookupD l k = v
  | [], _, hm => by cases hm
  | (q, w) :: rest, hnd, hm => by
      rcases List.mem_cons.1 hm with he | hm'
      · injection he with h1 h2
        subst h1
        subst h2
        simp [lookupD, List.find?]
      · have hq : q ≠ k := by
          rintro rfl
          have : q ∈ rest.map Prod.fst := List.mem_map.2 ⟨(q, v), hm', rfl⟩
          simp only [List.map_cons, List.nodup_cons] at hnd
          exact hnd.1 this
        have ih := lookupD_of_mem k v rest (by
          simp only [List.map_cons, List.nodup_cons] at hnd
          exact hnd.2) hm'
        simp only [lookupD, List.find?]
        rw [show (decide (q = k)) = false by simp [hq]]
        exact ih

theorem posSum_cons_pos (it : Item) (rest : List Item)
    (h : 0 < toPoints it.requiredPoints) :
    posSum (it :: rest) = toPoints it.requiredPoints + posSum rest := by
  simp [posSum, List.filter_cons, h]

theorem posSum_cons_nonpos (it : Item) (rest : List Item)
    (h : ¬ 0 < toPoints it.requiredPoints) :
    posSum (it :: rest) = posSum rest := by
  simp [posSum, List.filter_cons, h]

theorem domPosSum_cons_hit (it : Item) (rest : List Item) (k : String)
    (hd : defDomain it = k) (h : 0 < toPoints it.requiredPoints) :
    domPosSum (it :: rest) k = toPoints it.requiredPoints + domPosSum rest k := by
  simp [domPosSum, List.filter_cons, hd, h]

theorem domPosSum_cons_miss (it : Item) (rest : List Item) (k : String)
    (hm : ¬ (defDomain it = k ∧ 0 < toPoints it.requiredPoints)) :
    domPosSum (it :: rest) k = domPosSum rest k := by
  simp only [domPosSum, List.filter_cons, decide_eq_true_eq]
  rw [if_neg hm]

theorem accumLoop_total :
    ∀ (items : List Item) (l : List (String × Int)) (tot : Int),
      (accumLoop items (l, tot)).2 = tot + posSum items
  | [], l, tot => by simp [accumLoop, posSum]
  | it :: rest, l, tot => by
      rw [accumLoop]
      by_cases h : 0 < toPoints it.requiredPoints
      · rw [if_pos h, accumLoop_total rest, posSum_cons_pos it rest h]
        ring
      · rw [if_neg h, accumLoop_total rest, posSum_cons_nonpos it rest h]

theorem accumLoop_lookupD :
    ∀ (items : List Item) (l : List (String × Int)) (tot : Int) (k : String),
      lookupD (accumLoop items (l, tot)).1 k = lookupD l k + domPosSum items k
  | [], l, tot, k => by simp [accumLoop, domPosSum, lookupD]
  | it :: rest, l, tot, k => by
      rw [accumLoop]
      by_cases h : 0 < toPoints it.requiredPoints
      · rw [if_pos h, accumLoop_lookupD rest]
        by_cases hd : defDomain it = k
        · rw [hd, lookupD_bump_self, domPosSum_cons_hit it rest k hd h]
          ring
        · rw [lookupD_bump_other _ _ _ (fun hc => hd hc.symm),
            domPosSum_cons_miss it rest k (fun hc => hd hc.1)]
      · rw [if_neg h, accumLoop_lookupD rest,
          domPosSum_cons_miss it rest k (fun hc => h hc.2)]

theorem accumLoop_valsum :
    ∀ (items : List Item) (l : List (String × Int)) (tot : Int),
      ((accumLoop items (l, tot)).1.map (·.2)).sum = (l.map (·.2)).sum + posSum items
  | [], l, tot => by simp [accumLoop, posSum]
  | it :: rest, l, tot => by
      rw [accumLoop]
      by_cases h : 0 < toPoints it.requiredPoints
      · rw [if_pos h, accumLoop_valsum rest, bump_valsum, posSum_cons_pos it rest h]
        ring
      · rw [if_neg h, accumLoop_valsum rest, posSum_cons_nonpos it rest h]

theorem accumLoop_keys_nodup :
    ∀ (items : List Item) (l : List (String × Int)) (tot : Int),
      (l.map Prod.fst).Nodup → ((accumLoop items (l, tot)).1.map Prod.fst).Nodup
  | [], _, _ => fun h => h
  | it :: rest, l, tot => by
      intro h
      rw [accumLoop]
      by_cases hp : 0 < toPoints it.requiredPoints
      · rw [if_pos hp]
        exact accumLoop_keys_nodup rest _ _ (bump_keys_nodup _ _ _ h)
      · rw [if_neg hp]
        exact accumLoop_keys_nodup rest _ _ h

theorem accumLoop_valpos :
    ∀ (items : List Item) (l : List (String × Int)) (tot : Int),
      (∀ v ∈ l.map (·.2), 0 < v) →
      ∀ v ∈ (accumLoop items (l, tot)).1.map (·.2), 0 < v
  | [], _, _ => fun h => h
  | it :: rest, l, tot => by
      intro h
      rw [accumLoop]
      by_cases hp : 0 < toPoints it.requiredPoints
      · rw [if_pos hp]
        exact accumLoop_valpos rest _ _ (bump_valpos _ _ hp l h)
      · rw [if_neg hp]
        exact accumLoop_valpos rest _ _ h

theorem insKeyAsc_perm (x : String × Int) :
    ∀ l : List (String × Int), List.Perm (insKeyAsc x l) (x :: l)
  | [] => List.Perm.refl _
  | y :: ys => by
      rw [insKeyAsc]
      split
      · exact ((insKeyAsc_perm x ys).cons y).trans (List.Perm.swap x y ys)
      · exact List.Perm.refl _

theorem foldr_insKeyAsc_perm : ∀ l : List (String × Int), List.Perm (l.foldr insKeyAsc []) l
  | [] => List.Perm.refl _
  | x :: xs => by
      rw [List.foldr_cons]
      exact (insKeyAsc_perm x _).trans ((foldr_insKeyAsc_perm xs).cons x)

theorem entriesOrder_perm (l : List (String × Int)) : List.Perm (entriesOrder l) l := by
  unfold entriesOrder
  refine List.Perm.trans (List.Perm.append (foldr_insKeyAsc_perm _) (List.Perm.refl _)) ?_
  exact List.filter_append_perm _ l

theorem insPtsDesc_perm (x : DomainStat) :
    ∀ l : List DomainStat, List.Perm (insPtsDesc x l) (x :: l)
  | [] => List.Perm.refl _
  | y :: ys => by
      rw [insPtsDesc]
      split
      · exact List.Perm.refl _
      · exact ((insPtsDesc_perm x ys).cons y).trans (List.Perm.swap x y ys)

theorem sortPtsDesc_perm : ∀ l : List DomainStat, List.Perm (sortPtsDesc l) l
  | [] => List.Perm.refl _
  | x :: xs => by
      rw [sortPtsDesc, List.foldr_cons]
      exact (insPtsDesc_perm x _).trans ((sortPtsDesc_perm xs).cons x)

theorem mem_insPtsDesc {z x : DomainStat} {l : List DomainStat} :
    z ∈ insPtsDesc x l ↔ z = x ∨ z ∈ l :=
  (insPtsDesc_perm x l).mem_iff.trans List.mem_cons

theorem insPtsDesc_sorted (x : DomainStat) :
    ∀ l : List DomainStat, l.Pairwise (fun a b => b.points ≤ a.points) →
      (insPtsDesc x l).Pairwise (fun a b => b.points ≤ a.points)
  | [], _ => by simp [insPtsDesc]
  | y :: ys, h => by
      rw [insPtsDesc]
      rcases List.pairwise_cons.1 h with ⟨hy, hys⟩
      split
      · rename_i hlt
        refine List.pairwise_cons.2 ⟨?_, h⟩
        intro z hz
        rcases List.mem_cons.1 hz with rfl | hz
        · omega
        · have := hy z hz
          omega
      · rename_i hge
        refine List.pairwise_cons.2 ⟨?_, insPtsDesc_sorted x ys hys⟩
        intro z hz
        rcases mem_insPtsDesc.1 hz with rfl | hz
        · omega
        · exact hy z hz

theorem sortPtsDesc_sorted :
    ∀ l : List DomainStat, (sortPtsDesc l).Pairwise (fun a b => b.points ≤ a.points)
  | [] => by simp [sortPtsDesc]
  | x :: xs => by
      rw [sortPtsDesc, List.foldr_cons]
      exact insPtsDesc_sorted x _ (sortPtsDesc_sorted xs)

theorem posSum_eq_total :
    ∀ items : List Item, (∀ it ∈ items, 0 ≤ toPoints it.requiredPoints) →
      posSum items = (items.map fun it => toPoints it.requiredPoints).sum
  | [], _ => by simp [posSum]
  | it :: rest, h => by
      have hrest := posSum_eq_total rest (fun u hu => h u (List.mem_cons_of_mem _ hu))
      by_cases hp : 0 < toPoints it.requiredPoints
      · rw [posSum_cons_pos it rest hp, List.map_cons, List.sum_cons, hrest]
      · have h0 : toPoints it.requiredPoints = 0 := by
          have := h it (by simp)
          omega
        rw [posSum_cons_nonpos it rest hp, List.map_cons, List.sum_cons, h0, zero_add,
          hrest]

theorem calcStats_required_eq (d : PlannerData) (g : GroupId) :
    (calcStats d g).1 = ((d.items g).map fun it => toPoints it.requiredPoints).sum := by
  unfold calcStats
  dsimp only
  rw [foldl_add_map]
  simp

/-- The points column of the breakdown always totals exactly the positive
required points of the committed group (independent of any sign condition). -/
theorem domainBreakdown_points_sum (d : PlannerData) :
    ((domainBreakdown d).map DomainStat.points).sum = posSum (d.items .committed) := by
  have hvalsum : ((accumLoop (d.items .committed) ([], 0)).1.map (·.2)).sum
      = posSum (d.items .committed) := by
    rw [accumLoop_valsum]
    simp
  have hdb : domainBreakdown d
      = sortPtsDesc ((entriesOrder (accumLoop (d.items .committed) ([], 0)).1).map
          fun kv => ⟨kv.1, kv.2,
            if 0 < (accumLoop (d.items .committed) ([], 0)).2 then
              jsRound ((kv.2 : ℚ) / ((accumLoop (d.items .committed) ([], 0)).2 : ℚ) * 100)
            else 0⟩) := rfl
  have hperm : List.Perm ((domainBreakdown d).map DomainStat.points)
      ((accumLoop (d.items .committed) ([], 0)).1.map (·.2)) := by
    rw [hdb]
    refine List.Perm.trans (List.Perm.map _ (sortPtsDesc_perm _)) ?_
    rw [List.map_map]
    exact List.Perm.map _ (entriesOrder_perm _)
  rw [hperm.sum_eq, hvalsum]

/-- C3 (amended): `domainBreakdown` groups the committed items carrying
positive numeric required points by their domain (an absent or empty domain
counting as "Unassigned"), sums required points per domain, computes each
percent as `round(points / total-domain-points * 100)`, sorts descending by
points, and excludes zero-point domains; its points total equals (hence is
at most) the committed group's required-points sum for every document whose
present numeric required points are non-negative, as the data model
stipulates (a negative value — expressible through the unvalidated inputs —
breaks the inequality, see the counterexample). -/
theorem domainBreakdown_spec (d : PlannerData)
    (hnn : ∀ it ∈ d.items .committed, 0 ≤ toPoints it.requiredPoints) :
    (∀ st ∈ domainBreakdown d,
        st.points = domPosSum (d.items .committed) st.name ∧
        0 < st.points ∧
        st.percent = jsRound ((st.points : ℚ) / (posSum (d.items .committed) : ℚ) * 100)) ∧
    ((domainBreakdown d).map DomainStat.name).Nodup ∧
    (domainBreakdown d).Pairwise (fun a b => b.points ≤ a.points) ∧
    ((domainBreakdown d).map DomainStat.points).sum = posSum (d.items .committed) ∧
    posSum (d.items .committed) = (calcStats d .committed).1 := by
  have hacc1 : ∀ k, lookupD (accumLoop (d.items .committed) ([], 0)).1 k
      = domPosSum (d.items .committed) k := by
    intro k
    rw [accumLoop_lookupD]
    simp [lookupD]
  have hnodup : ((accumLoop (d.items .committed) ([], 0)).1.map Prod.fst).Nodup :=
    accumLoop_keys_nodup _ [] 0 (by simp)
  have hvalpos : ∀ v ∈ (accumLoop (d.items .committed) ([], 0)).1.map (·.2), 0 < v :=
    accumLoop_valpos _ [] 0 (by simp)
  have hvalsum : ((accumLoop (d.items .committed) ([], 0)).1.map (·.2)).sum
      = posSum (d.items .committed) := by
    rw [accumLoop_valsum]
    simp
  have htot : (accumLoop (d.items .committed) ([], 0)).2 = posSum (d.items .committed) := by
    rw [accumLoop_total]
    simp
  have hdb : domainBreakdown d
      = sortPtsDesc ((entriesOrder (accumLoop (d.items .committed) ([], 0)).1).map
          fun kv => ⟨kv.1, kv.2,
            if 0 < (accumLoop (d.items .committed) ([], 0)).2 then
              jsRound ((kv.2 : ℚ) / ((accumLoop (d.items .committed) ([], 0)).2 : ℚ) * 100)
            else 0⟩) := rfl
  have hmem : ∀ st ∈ domainBreakdown d,
      ∃ kv ∈ (accumLoop (d.items .committed) ([], 0)).1,
        st = ⟨kv.1, kv.2,
          if 0 < (accumLoop (d.items .committed) ([], 0)).2 then
            jsRound ((kv.2 : ℚ) / ((accumLoop (d.items .committed) ([], 0)).2 : ℚ) * 100)
          else 0⟩ := by
    intro st hst
    rw [hdb] at hst
    have hst2 := (sortPtsDesc_perm _).mem_iff.1 hst
    obtain ⟨kv, hkv, rfl⟩ := List.mem_map.1 hst2
    exact ⟨kv, (entriesOrder_perm _).mem_iff.1 hkv, rfl⟩
  refine ⟨?_, ?_, ?_, ?_, ?_⟩
  · intro st hst
    obtain ⟨kv, hkvmem, rfl⟩ := hmem st hst
    have hkv2 : kv.2 = domPosSum (d.items .committed) kv.1 := by
      rw [← hacc1 kv.1]
      exact (lookupD_of_mem kv.1 kv.2 _ hnodup hkvmem).symm
    have hpos : 0 < kv.2 := hvalpos kv.2 (List.mem_map.2 ⟨kv, hkvmem, rfl⟩)
    have hle : kv.2 ≤ posSum (d.items .committed) := by
      rw [← hvalsum]
      exact List.single_le_sum (fun x hx => le_of_lt (hvalpos x hx)) _
        (List.mem_map.2 ⟨kv, hkvmem, rfl⟩)
    have htotpos : 0 < (accumLoop (d.items .committed) ([], 0)).2 := by
      rw [htot]
      omega
    refine ⟨hkv2, hpos, ?_⟩
    dsimp only
    rw [if_pos htotpos, htot]
  · have hperm : List.Perm ((domainBreakdown d).map DomainStat.name)
        ((accumLoop (d.items .committed) ([], 0)).1.map Prod.fst) := by
      rw [hdb]
      refine List.Perm.trans (List.Perm.map _ (sortPtsDesc_perm _)) ?_
      rw [List.map_map]
      exact List.Perm.map _ (entriesOrder_perm _)
    exact hperm.nodup_iff.2 hnodup
  · rw [hdb]
    exact sortPtsDesc_sorted _
  · exact domainBreakdown_points_sum d
  · rw [calcStats_required_eq]
    exact posSum_eq_total _ hnn

/-- Witness for `domainBreakdown_spec`: a document with one committed
5-point item in domain "api" and one 3-point item with no domain. -/
def bdDoc : PlannerData where
  sprints := []
  velocity := 0
  items := fun g =>
    if g = .committed then
      [ { id := "i1", text := "", subItems := [], domain := some "api",
          requiredPoints := some (.num 5) },
        { id := "i2", text := "", subItems := [], requiredPoints := some (.num 3) } ]
    else []

theorem domainBreakdown_spec_witness :
    ((domainBreakdown bdDoc).map DomainStat.points).sum = posSum (bdDoc.items .committed) ∧
    posSum (bdDoc.items .committed) = (calcStats bdDoc .committed).1 :=
  ⟨(domainBreakdown_spec bdDoc (by decide)).2.2.2.1,
   (domainBreakdown_spec bdDoc (by decide)).2.2.2.2⟩

/-- A committed group containing a negative required-points value, as the
unvalidated `parseInt` inputs and the import path can produce. -/
def negDoc : PlannerData where
  sprints := []
  velocity := 0
  items := fun g =>
    if g = .committed then
      [ { id := "i1", text := "", subItems := [], requiredPoints := some (.num (-5)) },
        { id := "i2", text := "", subItems := [], domain := some "api",
          requiredPoints := some (.num 3) } ]
    else []

/-- C3 counterexample: with a negative committed required-points value the
breakdown's points total (3) exceeds the committed group's required total
(-2), so the claimed "at most" fails as stated for arbitrary documents. -/
theorem domainBreakdown_sum_exceeds_required :
    ((domainBreakdown negDoc).map DomainStat.points).sum = 3 ∧
    (calcStats negDoc .committed).1 = -2 ∧
    ¬ (((domainBreakdown negDoc).map DomainStat.points).sum
        ≤ (calcStats negDoc .committed).1) := by
  have h1 : posSum (negDoc.items .committed) = 3 := by decide
  have h2 : (calcStats negDoc .committed).1 = -2 := by decide
  refine ⟨by rw [domainBreakdown_points_sum negDoc, h1], h2, ?_⟩
  rw [domainBreakdown_points_sum negDoc, h1, h2]
  omega

/-! ## Claim C2: cross-group moves neither duplicate nor lose items -/

/-- Occurrences of an id in a group's item sequence. -/
def countIds : List Item → String → Nat
  | [], _ => 0
  | it :: rest, x => (if it.id = x then 1 else 0) + countIds rest x

/-- Occurrences of an id across all seven groups. -/
def countAll (d : PlannerData) (x : String) : Nat :=
  (allGroups.map fun g => countIds (d.items g) x).sum

/-- The concatenation of all groups' item ids. -/
def allIds (d : PlannerData) : List String :=
  (allGroups.map fun g => (d.items g).map Item.id).flatten

theorem countIds_eq_count :
    ∀ (l : List Item) (x : String), countIds l x = (l.map Item.id).count x
  | [], x => rfl
  | it :: rest, x => by
      by_cases h : it.id = x
      · rw [countIds, if_pos h, countIds_eq_count rest x, List.map_cons,
          List.count_cons, show (it.id == x) = true by simp [h], if_pos rfl]
        omega
      · rw [countIds, if_neg h, countIds_eq_count rest x, List.map_cons,
          List.count_cons, show (it.id == x) = false by simp [h]]
        simp

theorem count_allIds (d : PlannerData) (x : String) :
    (allIds d).count x = countAll d x := by
  rw [show allIds d
    = (d.items .staging).map Item.id ++ ((d.items .committed).map Item.id ++
      ((d.items .milestones).map Item.id ++ ((d.items .risks).map Item.id ++
      ((d.items .dependencies).map Item.id ++ ((d.items .willNotDo).map Item.id ++
      ((d.items .uncommitted).map Item.id ++ [])))))) from rfl]
  simp [countAll, allGroups, countIds_eq_count, List.count_append]

theorem sum_update (g : GroupId) :
    ∀ gs : List GroupId, gs.Nodup → g ∈ gs → ∀ (f : GroupId → Nat) (v : Nat),
      (gs.map fun g' => if g' = g then v else f g').sum + f g = (gs.map f).sum + v
  | [], _, hg, _, _ => absurd hg (by simp)
  | a :: gs, hnd, hg, f, v => by
      rcases List.mem_cons.1 hg with rfl | hg'
      · have ha : ∀ g' ∈ gs, (if g' = g then v else f g') = f g' := by
          intro g' hgm
          rw [if_neg]
          rintro rfl
          exact (List.nodup_cons.1 hnd).1 hgm
        simp only [List.map_cons, List.sum_cons]
        rw [List.map_congr_left ha]
        rw [show (if True then v else f g) = v from if_pos trivial]
        omega
      · have hag : a ≠ g := by
          rintro rfl
          exact (List.nodup_cons.1 hnd).1 hg'
        have ih := sum_update g gs (List.nodup_cons.1 hnd).2 hg' f v
        simp only [List.map_cons, List.sum_cons]
        rw [if_neg hag]
        omega

theorem mem_allGroups (g : GroupId) : g ∈ allGroups := by
  cases g <;> simp [allGroups]

theorem allGroups_nodup : allGroups.Nodup := by decide

theorem countAll_setGroup (d : PlannerData) (g : GroupId) (l : List Item) (x : String) :
    countAll (setGroup d g l) x + countIds (d.items g) x
      = countAll d x + countIds l x := by
  have hfun : ∀ g' ∈ allGroups, countIds ((setGroup d g l).items g') x
      = if g' = g then countIds l x else countIds (d.items g') x := by
    intro g' _
    by_cases h : g' = g
    · subst h
      rw [setGroup_items_same, if_pos rfl]
    · rw [setGroup_items_other _ _ _ _ h, if_neg h]
  unfold countAll
  rw [List.map_congr_left hfun]
  exact sum_update g allGroups allGroups_nodup (mem_allGroups g)
    (fun g' => countIds (d.items g') x) (countIds l x)

theorem countIds_le_countAll (d : PlannerData) (g : GroupId) (x : String) :
    countIds (d.items g) x ≤ countAll d x :=
  List.single_le_sum (fun a _ => Nat.zero_le a) _
    (List.mem_map.2 ⟨g, mem_allGroups g, rfl⟩)

theorem countIds_filter_ne (a x : String) :
    ∀ l : List Item,
      countIds (l.filter fun i => i.id ≠ a) x = if x = a then 0 else countIds l x
  | [] => by
      by_cases hx : x = a <;> simp [countIds, hx]
  | it :: rest => by
      have ih := countIds_filter_ne a x rest
      by_cases h : it.id = a
      · rw [show (it :: rest).filter (fun i => i.id ≠ a)
            = rest.filter (fun i => i.id ≠ a) by simp [List.filter_cons, h], ih]
        by_cases hx : x = a
        · rw [if_pos hx, if_pos hx]
        · rw [if_neg hx, if_neg hx, countIds,
            if_neg (fun hc => hx (by rw [← hc, h]))]
          omega
      · rw [show (it :: rest).filter (fun i => i.id ≠ a)
            = it :: rest.filter (fun i => i.id ≠ a) by simp [List.filter_cons, h],
          countIds, ih, countIds]
        by_cases hx : x = a
        · rw [if_pos hx, if_pos hx, if_neg (fun hc => h (hx ▸ hc))]
        · rw [if_neg hx, if_neg hx]

theorem countIds_append_one (it : Item) (x : String) :
    ∀ l : List Item,
      countIds (l ++ [it]) x = countIds l x + (if it.id = x then 1 else 0)
  | [] => by
      rw [List.nil_append, countIds, countIds, countIds]
      omega
  | a :: rest => by
      rw [List.cons_append, countIds, countIds, countIds_append_one it x rest]
      omega

theorem countIds_insertIdx (it : Item) (x : String) :
    ∀ (n : Nat) (l : List Item), n ≤ l.length →
      countIds (l.insertIdx n it) x = countIds l x + (if it.id = x then 1 else 0)
  | 0, l, _ => by
      rw [List.insertIdx_zero, countIds]
      omega
  | n + 1, [], h => by
      exact absurd h (by simp)
  | n + 1, a :: rest, h => by
      rw [List.insertIdx_succ_cons, countIds, countIds,
        countIds_insertIdx it x n rest (by simpa using h)]
      omega

theorem one_le_countIds_of_mem (it : Item) :
    ∀ l : List Item, it ∈ l → 1 ≤ countIds l it.id
  | [], hm => absurd hm (by simp)
  | a :: rest, hm => by
      rcases List.mem_cons.1 hm with rfl | hm'
      · rw [countIds, if_pos rfl]
        omega
      · rw [countIds]
        have := one_le_countIds_of_mem it rest hm'
        omega

theorem countIds_pos_iff (x : String) :
    ∀ l : List Item, 0 < countIds l x ↔ x ∈ l.map Item.id
  | [] => by simp [countIds]
  | a :: rest => by
      rw [countIds, List.map_cons, List.mem_cons]
      constructor
      · intro h
        by_cases ha : a.id = x
        · exact Or.inl ha.symm
        · rw [if_neg ha] at h
          exact Or.inr ((countIds_pos_iff x rest).1 (by omega))
      · rintro (rfl | hm)
        · rw [if_pos rfl]
          omega
      
        · have := (countIds_pos_iff x rest).2 hm
          omega

theorem countP_of_sum_eq_one :
    ∀ (gs : List GroupId) (f : GroupId → Nat), (gs.map f).sum = 1 →
      (gs.countP fun g => decide (0 < f g)) = 1
  | [], _, h => by simp at h
  | a :: gs, f, h => by
      simp only [List.map_cons, List.sum_cons] at h
      by_cases ha : 0 < f a
      · have hz : ∀ g ∈ gs, f g = 0 := by
          intro g hg
          have := List.single_le_sum (fun (b : Nat) _ => Nat.zero_le b) (f g)
            (List.mem_map.2 ⟨g, hg, rfl⟩)
          omega
        have hrest : gs.countP (fun g => decide (0 < f g)) = 0 := by
          rw [List.countP_eq_zero]
          intro g hg
          simp [hz g hg]
        rw [List.countP_cons]
        simp [hrest, ha]
      · have ih := countP_of_sum_eq_one gs f (by omega)
        rw [List.countP_cons]
        simp [ih, ha]

/-- Count-preservation and exactly-one-group membership after the
filter-source/insert-destination update shared by both cross-group branches
of `handleDragEnd`. -/
theorem move_preserves_counts (d : PlannerData) (src dest : GroupId)
    (hsd : src ≠ dest) (item : Item) (hmem : item ∈ d.items src)
    (hnd : (allIds d).Nodup) (Ldest : List Item)
    (hLd : ∀ x, countIds Ldest x
        = countIds (d.items dest) x + (if item.id = x then 1 else 0)) :
    (∀ x, countAll (setGroup (setGroup d src
        ((d.items src).filter fun i => i.id ≠ item.id)) dest Ldest) x
      = countAll d x) ∧
    (allGroups.countP fun g =>
      item.id ∈ ((setGroup (setGroup d src
        ((d.items src).filter fun i => i.id ≠ item.id)) dest Ldest).items g).map
          Item.id) = 1 := by
  have hub : countAll d item.id ≤ 1 := by
    rw [← count_allIds]
    exact List.nodup_iff_count_le_one.1 hnd item.id
  have hlb : 1 ≤ countIds (d.items src) item.id :=
    one_le_countIds_of_mem item (d.items src) hmem
  have hcount1 : countAll d item.id = 1 := by
    have := countIds_le_countAll d src item.id
    omega
  have hd1dest : (setGroup d src
      ((d.items src).filter fun i => i.id ≠ item.id)).items dest = d.items dest :=
    setGroup_items_other d src dest _ (Ne.symm hsd)
  have hpres : ∀ x, countAll (setGroup (setGroup d src
      ((d.items src).filter fun i => i.id ≠ item.id)) dest Ldest) x = countAll d x := by
    intro x
    have h1 := countAll_setGroup d src
      ((d.items src).filter fun i => i.id ≠ item.id) x
    have h2 := countAll_setGroup (setGroup d src
      ((d.items src).filter fun i => i.id ≠ item.id)) dest Ldest x
    rw [hd1dest] at h2
    have hF := countIds_filter_ne item.id x (d.items src)
    have hL := hLd x
    by_cases hx : x = item.id
    · subst hx
      rw [if_pos rfl] at hF
      rw [if_pos rfl] at hL
      have := countIds_le_countAll d src item.id
      omega
    · rw [if_neg hx] at hF
      rw [if_neg (fun hc => hx hc.symm)] at hL
      omega
  refine ⟨hpres, ?_⟩
  have hone : countAll (setGroup (setGroup d src
      ((d.items src).filter fun i => i.id ≠ item.id)) dest Ldest) item.id = 1 := by
    rw [hpres item.id]
    exact hcount1
  have hcp := countP_of_sum_eq_one allGroups
    (fun g => countIds ((setGroup (setGroup d src
      ((d.items src).filter fun i => i.id ≠ item.id)) dest Ldest).items g) item.id)
    hone
  rw [← hcp]
  refine List.countP_congr ?_
  intro g _
  simp only [decide_eq_true_eq]
  exact (countIds_pos_iff item.id _).symm

/-- A digested drag-end event that relocates the dragged item into a
different group: either a drop on another group's empty-zone marker, or a
drop on an item of another group. -/
def crossGroupEvent (ev : DragEndEvent) : Prop :=
  ∃ over, ev.over = some over ∧ ev.activeId ≠ over.oid ∧
    ((∃ gd, groupOfString over.oid = some gd ∧ ev.activeData.groupId ≠ gd) ∨
     (groupOfString over.oid = none ∧
       ∃ od, over.data = some od ∧ ev.activeData.groupId ≠ od.groupId))

/-- C2: on a document with globally unique item ids, any drag-end resolution
that relocates an item between two distinct groups preserves the multiset of
item ids across all seven groups (no item duplicated or lost), and the moved
item ends up in exactly one group. -/
theorem handleDragEnd_move_invariant (d : PlannerData) (ev : DragEndEvent)
    (hnd : (allIds d).Nodup)
    (hid : ev.activeId = ev.activeData.item.id)
    (hmem : ev.activeData.item ∈ d.items ev.activeData.groupId)
    (hcross : crossGroupEvent ev) :
    (∀ x, countAll (handleDragEnd d ev) x = countAll d x) ∧
    (allGroups.countP fun g =>
      ev.activeData.item.id ∈ ((handleDragEnd d ev).items g).map Item.id) = 1 := by
  obtain ⟨over, hov, hne, hcase⟩ := hcross
  rcases hcase with ⟨gd, hgd, hsd⟩ | ⟨hnone, od, hod, hsd⟩
  · have hde : handleDragEnd d ev
        = setGroup (setGroup d ev.activeData.groupId
            ((d.items ev.activeData.groupId).filter
              fun i => i.id ≠ ev.activeData.item.id)) gd
            (d.items gd ++ [ev.activeData.item]) := by
      unfold handleDragEnd
      rw [hov]
      dsimp only
      rw [if_neg hne, hgd]
      dsimp only
      rw [if_neg hsd]
    rw [hde]
    exact move_preserves_counts d ev.activeData.groupId gd hsd ev.activeData.item
      hmem hnd _ (fun x => countIds_append_one ev.activeData.item x (d.items gd))
  · have hn : (((d.items od.groupId).findIdx?
        (fun i => i.id = over.oid)).getD (d.items od.groupId).length)
        ≤ (d.items od.groupId).length := by
      rcases hfi : (d.items od.groupId).findIdx? (fun i => i.id = over.oid) with _ | i
      · rw [hfi]
        simp
      · rw [hfi]
        have := ((List.findIdx?_eq_some_iff_findIdx_eq).1 hfi).1
        simp only [Option.getD_some]
        omega
    have hde : handleDragEnd d ev
        = setGroup (setGroup d ev.activeData.groupId
            ((d.items ev.activeData.groupId).filter
              fun i => i.id ≠ ev.activeData.item.id)) od.groupId
            ((d.items od.groupId).insertIdx
              (((d.items od.groupId).findIdx?
                (fun i => i.id = over.oid)).getD (d.items od.groupId).length)
              ev.activeData.item) := by
      unfold handleDragEnd
      rw [hov]
      dsimp only
      rw [if_neg hne, hnone]
      try dsimp only
      rw [hod]
      simp only [Option.map_some', Option.getD_some]
      rw [if_neg hsd]
    rw [hde]
    exact move_preserves_counts d ev.activeData.groupId od.groupId hsd
      ev.activeData.item hmem hnd _
      (fun x => countIds_insertIdx ev.activeData.item x _ (d.items od.groupId) hn)

/-- Witness for `handleDragEnd_move_invariant`: dragging the single staging
item of `twoDoc`-like data onto the committed group's drop zone. -/
def moveDoc : PlannerData where
  sprints := []
  velocity := 0
  items := fun g =>
    if g = .staging then [{ id := "a", text := "", subItems := [] }] else []

theorem handleDragEnd_move_invariant_witness :
    countAll (handleDragEnd moveDoc
      ⟨"a", ⟨{ id := "a", text := "", subItems := [] }, .staging⟩,
        some ⟨"committed", none⟩⟩) "a" = countAll moveDoc "a" :=
  (handleDragEnd_move_invariant moveDoc
    ⟨"a", ⟨{ id := "a", text := "", subItems := [] }, .staging⟩,
      some ⟨"committed", none⟩⟩
    (by decide) rfl (by decide)
    ⟨⟨"committed", none⟩, rfl, by decide, Or.inl ⟨.committed, by decide, by decide⟩⟩).1 "a"

end Planner
